import Mathlib

/-!
Shallow embedding of the token-bucket rate limiter in
`src/rate_limiter.rs` (the Rust `RateLimiter::check` wrapper and the Lua
script `LUA_SCRIPT` it invokes atomically against Redis).

Modelling choices:
* Lua numbers (doubles) are modelled as exact rationals `ℚ`; integer
  arguments and timestamps as `ℤ`.
* The Redis hash stored under the key is modelled as `Option Bucket`
  (`none` = key absent, in which case the script sees `tokens == nil`).
* Each invocation of the script is one atomic step on the stored state,
  mirroring Redis's atomic execution of a Lua script.
-/

/-- A stored bucket record: the `tokens` and `last_refill` hash fields
written by `HMSET key tokens last_refill`. -/
structure Bucket where
  tokens : ℚ
  last_refill : ℤ
  deriving DecidableEq, Repr

/-- The triple `{allowed, math.floor(tokens), retry_after_ms}` that the Lua
script returns to the Rust caller. -/
structure ScriptResult where
  allowed : ℤ
  remaining : ℤ
  retry_after_ms : ℤ
  deriving DecidableEq, Repr

/-- The refill step of the Lua script:
`tokens = math.min(max_tokens, tokens + (elapsed_ms / 1000.0) * refill_rate)`.
No clamp is applied to the refill amount. -/
def refillTokens (max_tokens : ℤ) (tokens : ℚ) (refill_rate : ℚ)
    (elapsed_ms : ℤ) : ℚ :=
  min (max_tokens : ℚ) (tokens + ((elapsed_ms : ℚ) / 1000) * refill_rate)

/-- The body of `LUA_SCRIPT`: read the record (absent = full bucket with
`last_refill = now_ms`), refill, consume one token if at least one is
available, otherwise compute `retry_after_ms`, and persist the updated
record.  Returns the reply triple together with the stored record. -/
def runScript (max_tokens : ℤ) (refill_rate : ℚ) (now_ms : ℤ)
    (state : Option Bucket) : ScriptResult × Bucket :=
  let tokens0 : ℚ :=
    match state with
    | none => (max_tokens : ℚ)
    | some b => b.tokens
  let last_refill0 : ℤ :=
    match state with
    | none => now_ms
    | some b => b.last_refill
  let elapsed_ms : ℤ := now_ms - last_refill0
  let tokens1 : ℚ := refillTokens max_tokens tokens0 refill_rate elapsed_ms
  if 1 ≤ tokens1 then
    (⟨1, ⌊tokens1 - 1⌋, 0⟩, ⟨tokens1 - 1, now_ms⟩)
  else
    (⟨0, ⌊tokens1⌋, ⌈((1 - tokens1) / refill_rate) * 1000⌉⟩,
      ⟨tokens1, now_ms⟩)

/-- The `RateLimitResult` struct returned by `RateLimiter::check`. -/
structure RateLimitResult where
  allowed : Bool
  remaining : ℤ
  retry_after_ms : ℤ
  deriving DecidableEq, Repr

/-- `RateLimiter::check`: computes `max_tokens = burst.max(1)` and
`refill_rate = requests_per_minute as f64 / 60.0`, then invokes the Lua
script.  The Rust code performs no validation of `requests_per_minute`
before invoking the script.  Returns the decision together with the
record the script stored. -/
def check (requests_per_minute burst now_ms : ℤ) (state : Option Bucket) :
    RateLimitResult × Bucket :=
  let max_tokens : ℤ := max burst 1
  let refill_rate : ℚ := (requests_per_minute : ℚ) / 60
  let r := runScript max_tokens refill_rate now_ms state
  (⟨r.1.allowed == 1, r.1.remaining, r.1.retry_after_ms⟩, r.2)

/-- The reply handling in `RateLimiter::check`: the script reply is read
as a `Vec<i64>` and indexed at positions 0, 1 and 2 without a bounds
check (`result[0]`, `result[1]`, `result[2]`).  `none` models the Rust
index-out-of-bounds panic that occurs when the vector is shorter than
three elements. -/
def parseResultVec (result : List ℤ) : Option RateLimitResult :=
  match result[0]?, result[1]?, result[2]? with
  | some a, some r, some t => some ⟨a == 1, r, t⟩
  | _, _, _ => none

/-- State of the bucket after `k` identical `check` calls (same limit,
burst and timestamp), starting from an absent record. -/
def afterCalls (rpm burst now_ms : ℤ) : ℕ → Option Bucket
  | 0 => none
  | k + 1 => some (check rpm burst now_ms (afterCalls rpm burst now_ms k)).2

/-- Decision returned by the `(k+1)`-th of a run of identical `check`
calls starting from an absent record. -/
def callResult (rpm burst now_ms : ℤ) (k : ℕ) : RateLimitResult :=
  (check rpm burst now_ms (afterCalls rpm burst now_ms k)).1

/-- How many of the first `m` identical `check` calls (starting from an
absent record) are allowed. -/
def allowedCount (rpm burst now_ms : ℤ) : ℕ → ℕ
  | 0 => 0
  | m + 1 =>
      allowedCount rpm burst now_ms m +
        (if (callResult rpm burst now_ms m).allowed then 1 else 0)

/-- The refill step never produces more than `max_tokens`. -/
theorem refillTokens_le_max (max_tokens : ℤ) (tokens refill_rate : ℚ)
    (elapsed_ms : ℤ) :
    refillTokens max_tokens tokens refill_rate elapsed_ms ≤ (max_tokens : ℚ) :=
  min_le_left _ _

/-- With a non-negative starting count, non-negative rate and non-negative
elapsed time, the refill step yields a non-negative count. -/
theorem refillTokens_nonneg (max_tokens : ℤ) (tokens refill_rate : ℚ)
    (elapsed_ms : ℤ) (hmax : 0 ≤ max_tokens) (htok : 0 ≤ tokens)
    (hrate : 0 ≤ refill_rate) (helapsed : 0 ≤ elapsed_ms) :
    0 ≤ refillTokens max_tokens tokens refill_rate elapsed_ms := by
  unfold refillTokens
  have hq : (0 : ℚ) ≤ ((elapsed_ms : ℚ) / 1000) * refill_rate :=
    mul_nonneg (div_nonneg (by exact_mod_cast helapsed) (by norm_num)) hrate
  exact le_min (by exact_mod_cast hmax) (by linarith)

/-- With elapsed zero, the refill step is the identity below capacity. -/
theorem refillTokens_zero_elapsed (max_tokens : ℤ) (tokens refill_rate : ℚ)
    (htok : tokens ≤ (max_tokens : ℚ)) :
    refillTokens max_tokens tokens refill_rate 0 = tokens := by
  unfold refillTokens
  norm_num [min_eq_right htok]

/-- C8: the token count stored by the atomic procedure (post-refill, and
post-decrement when allowed) never exceeds
`min(max_tokens, tokens_before + Δt·refill_rate)` where `Δt` is the
elapsed time in seconds between the stored `last_refill` and `now_ms`. -/
theorem C8_refill_monotonicity (max_tokens : ℤ) (refill_rate : ℚ)
    (now_ms last_refill : ℤ) (tokens : ℚ) :
    (runScript max_tokens refill_rate now_ms (some ⟨tokens, last_refill⟩)).2.tokens
      ≤ min (max_tokens : ℚ)
          (tokens + (((now_ms - last_refill : ℤ) : ℚ) / 1000) * refill_rate) := by
  simp only [runScript, refillTokens]
  split
  · simp only
    have h := min_le_min (le_refl (max_tokens : ℚ))
      (le_refl (tokens + (((now_ms - last_refill : ℤ) : ℚ) / 1000) * refill_rate))
    linarith [min_le_left (max_tokens : ℚ)
      (tokens + (((now_ms - last_refill : ℤ) : ℚ) / 1000) * refill_rate)]
  · simp only
    exact le_refl _

/-- C5: on a denied call (post-refill count `t < 1`), the atomic procedure
returns `retry_after_ms = ⌈((1 - t) / refill_rate) · 1000⌉`. -/
theorem C5_retry_after (max_tokens : ℤ) (refill_rate : ℚ)
    (now_ms last_refill : ℤ) (tokens : ℚ) (hrate : 0 < refill_rate)
    (ht : refillTokens max_tokens tokens refill_rate (now_ms - last_refill) < 1) :
    (runScript max_tokens refill_rate now_ms
        (some ⟨tokens, last_refill⟩)).1.retry_after_ms
      = ⌈((1 - refillTokens max_tokens tokens refill_rate (now_ms - last_refill))
            / refill_rate) * 1000⌉ := by
  simp only [runScript]
  rw [if_neg (by push_neg; exact ht)]

/-- C5 witness: with post-refill `tokens = 0` and `refill_rate = 1` token
per second, the denied call returns `retry_after_ms = 1000` exactly. -/
theorem C5_retry_after_witness :
    (runScript 10 1 0 (some ⟨0, 0⟩)).1.retry_after_ms = 1000 := by
  have h := C5_retry_after 10 1 0 0 0 (by norm_num) (by norm_num [refillTokens])
  rw [h]
  norm_num [refillTokens]

/-- C2 counterexample: with `elapsed_ms = -1000`, `refill_rate = 1`,
`max_tokens = 10` and a stored count of 5, the refill step produces 4,
strictly below the prior count — the refill amount is not clamped at 0. -/
theorem C2_counterexample :
    refillTokens 10 5 1 (-1000) < 5 ∧
      (runScript 10 1 0 (some ⟨5, 1000⟩)).2.tokens < 5 := by
  constructor
  · norm_num [refillTokens]
  · norm_num [runScript, refillTokens]

/-- C2 amended: the script applies no clamp, so whenever `elapsed_ms < 0`,
`refill_rate > 0` and the stored count is at most capacity, the token
count after the refill step is strictly smaller than before. -/
theorem C2_no_clamp (max_tokens : ℤ) (tokens refill_rate : ℚ)
    (elapsed_ms : ℤ) (helapsed : elapsed_ms < 0) (hrate : 0 < refill_rate)
    (htok : tokens ≤ (max_tokens : ℚ)) :
    refillTokens max_tokens tokens refill_rate elapsed_ms < tokens := by
  unfold refillTokens
  have h1 : ((elapsed_ms : ℚ) / 1000) * refill_rate < 0 :=
    mul_neg_of_neg_of_pos
      (div_neg_of_neg_of_pos (by exact_mod_cast helapsed) (by norm_num)) hrate
  calc min (max_tokens : ℚ) (tokens + ((elapsed_ms : ℚ) / 1000) * refill_rate)
      ≤ tokens + ((elapsed_ms : ℚ) / 1000) * refill_rate := min_le_right _ _
    _ < tokens := by linarith

/-- C2 amended witness: concrete strict decrease of the refill step under
a backwards clock. -/
theorem C2_no_clamp_witness : refillTokens 10 5 1 (-1000) < 5 :=
  C2_no_clamp 10 5 1 (-1000) (by norm_num) (by norm_num) (by norm_num)

/-- C1: `check` performs no validation of `requests_per_minute`.  A call
with `requests_per_minute = 0` reaches the atomic procedure, which runs
to completion, stores an updated record and returns an ordinary allowed
decision — no `InvalidLimit` rejection happens (no such error kind exists
in the code). -/
theorem C1_no_validation :
    (check 0 0 0 none).1 = ⟨true, 0, 0⟩ ∧ (check 0 0 0 none).2 = ⟨0, 0⟩ := by
  constructor <;> norm_num [check, runScript, refillTokens]

/-- C6: when the store's reply has fewer than three elements, the reply
handling in `check` hits an out-of-bounds index (modelled as `none`, the
Rust panic) instead of surfacing a protocol error to the caller. -/
theorem C6_short_reply_panics : parseResultVec [1, 5] = none := rfl

/-- One execution of the script keeps the stored token count inside
`[0, max_tokens]`, provided the rate is non-negative and the pre-call
record (if present) has a non-negative count and a `last_refill` not in
the future. -/
theorem runScript_tokens_bounds (max_tokens : ℤ) (refill_rate : ℚ)
    (now_ms : ℤ) (state : Option Bucket) (hmax : 1 ≤ max_tokens)
    (hrate : 0 ≤ refill_rate)
    (hstate : ∀ b ∈ state, 0 ≤ b.tokens ∧ b.last_refill ≤ now_ms) :
    0 ≤ (runScript max_tokens refill_rate now_ms state).2.tokens ∧
      (runScript max_tokens refill_rate now_ms state).2.tokens
        ≤ (max_tokens : ℚ) := by
  have hmaxq : (1 : ℚ) ≤ (max_tokens : ℚ) := by exact_mod_cast hmax
  cases state with
  | none =>
    simp only [runScript, sub_self,
      refillTokens_zero_elapsed max_tokens (max_tokens : ℚ) refill_rate le_rfl]
    rw [if_pos hmaxq]
    constructor
    · simp only
      linarith
    · simp only
      linarith
  | some b =>
    obtain ⟨htok, hlast⟩ := hstate b rfl
    have h0 : 0 ≤ refillTokens max_tokens b.tokens refill_rate
        (now_ms - b.last_refill) :=
      refillTokens_nonneg _ _ _ _ (by omega) htok hrate (by omega)
    have h1 : refillTokens max_tokens b.tokens refill_rate
        (now_ms - b.last_refill) ≤ (max_tokens : ℚ) :=
      refillTokens_le_max _ _ _ _
    simp only [runScript]
    split_ifs with h
    · exact ⟨by simp only; linarith, by simp only; linarith⟩
    · exact ⟨h0, h1⟩

/-- C3 amended: one `check` call with `requests_per_minute ≥ 0` on a
record that is absent, or has `0 ≤ tokens` and a `last_refill` not ahead
of `now_ms`, stores a record with `0 ≤ tokens ≤ max(burst, 1)` — the
capacity supplied by this (most recent) call. -/
theorem C3_invariant_preserved (rpm burst now_ms : ℤ) (state : Option Bucket)
    (hrpm : 0 ≤ rpm)
    (hstate : ∀ b ∈ state, 0 ≤ b.tokens ∧ b.last_refill ≤ now_ms) :
    0 ≤ (check rpm burst now_ms state).2.tokens ∧
      (check rpm burst now_ms state).2.tokens ≤ ((max burst 1 : ℤ) : ℚ) := by
  have h := runScript_tokens_bounds (max burst 1) ((rpm : ℚ) / 60) now_ms state
    (le_max_right _ _)
    (div_nonneg (by exact_mod_cast hrpm) (by norm_num)) hstate
  simpa [check] using h

/-- C3 amended witness: a concrete call on a present record keeps the
stored count within `[0, max(burst, 1)]`. -/
theorem C3_invariant_preserved_witness :
    0 ≤ (check 60 10 5000 (some ⟨3, 4000⟩)).2.tokens ∧
      (check 60 10 5000 (some ⟨3, 4000⟩)).2.tokens ≤ ((max 10 1 : ℤ) : ℚ) := by
  refine C3_invariant_preserved 60 10 5000 (some ⟨3, 4000⟩) (by norm_num) ?_
  intro b hb
  cases hb
  norm_num

/-- C3 counterexample: a two-call sequence whose second call carries an
earlier timestamp (clock moved backwards) stores a record with a strictly
negative token count, violating `0 ≤ tokens`. -/
theorem C3_counterexample :
    (check 60 10 0 (some (check 60 10 10000 none).2)).2.tokens < 0 := by
  norm_num [check, runScript, refillTokens]

/-- One execution of the script either allows with `retry_after_ms = 0`
or denies (`allowed = 0`) with a strictly positive `retry_after_ms`,
whenever the refill rate is positive. -/
theorem runScript_allowed_retry (max_tokens : ℤ) (refill_rate : ℚ)
    (now_ms : ℤ) (state : Option Bucket) (hrate : 0 < refill_rate) :
    ((runScript max_tokens refill_rate now_ms state).1.allowed = 1 ∧
        (runScript max_tokens refill_rate now_ms state).1.retry_after_ms = 0) ∨
      ((runScript max_tokens refill_rate now_ms state).1.allowed = 0 ∧
        0 < (runScript max_tokens refill_rate now_ms state).1.retry_after_ms) := by
  simp only [runScript]
  split_ifs with h
  · exact Or.inl ⟨rfl, rfl⟩
  · refine Or.inr ⟨rfl, Int.ceil_pos.mpr ?_⟩
    have h1 := not_le.mp h
    exact mul_pos (div_pos (by linarith) hrate) (by norm_num)

/-- The reply triple of one script execution: `remaining` is the floor of
the stored (post-decrement) token count, `remaining` and `retry_after_ms`
are non-negative, and a denial leaves `remaining = 0` — assuming capacity
at least 1, a positive rate, and a well-formed pre-call record. -/
theorem runScript_decision_props (max_tokens : ℤ) (refill_rate : ℚ)
    (now_ms : ℤ) (state : Option Bucket) (hmax : 1 ≤ max_tokens)
    (hrate : 0 < refill_rate)
    (hstate : ∀ b ∈ state, 0 ≤ b.tokens ∧ b.last_refill ≤ now_ms) :
    (runScript max_tokens refill_rate now_ms state).1.remaining
        = ⌊(runScript max_tokens refill_rate now_ms state).2.tokens⌋ ∧
      0 ≤ (runScript max_tokens refill_rate now_ms state).1.remaining ∧
      0 ≤ (runScript max_tokens refill_rate now_ms state).1.retry_after_ms ∧
      ((runScript max_tokens refill_rate now_ms state).1.allowed ≠ 1 →
        (runScript max_tokens refill_rate now_ms state).1.remaining = 0) := by
  have hmaxq : (1 : ℚ) ≤ (max_tokens : ℚ) := by exact_mod_cast hmax
  cases state with
  | none =>
    have hfull : refillTokens max_tokens (max_tokens : ℚ) refill_rate 0
        = (max_tokens : ℚ) := refillTokens_zero_elapsed _ _ _ le_rfl
    simp only [runScript, sub_self, hfull]
    rw [if_pos hmaxq]
    refine ⟨rfl, Int.floor_nonneg.mpr (by linarith), le_refl 0,
      fun hcontra => absurd rfl hcontra⟩
  | some b =>
    obtain ⟨htok, hlast⟩ := hstate b rfl
    have h0 : 0 ≤ refillTokens max_tokens b.tokens refill_rate
        (now_ms - b.last_refill) :=
      refillTokens_nonneg _ _ _ _ (by omega) htok hrate.le (by omega)
    simp only [runScript]
    split_ifs with h
    · exact ⟨rfl, Int.floor_nonneg.mpr (by linarith), le_refl 0,
        fun hcontra => absurd rfl hcontra⟩
    · have h1 := not_le.mp h
      refine ⟨rfl, Int.floor_nonneg.mpr h0, Int.ceil_nonneg ?_, fun _ => ?_⟩
      · exact mul_nonneg (div_nonneg (by linarith) hrate.le) (by norm_num)
      · exact Int.floor_eq_zero_iff.mpr (Set.mem_Ico.mpr ⟨h0, h1⟩)

/-- C7 amended: for a `check` call with `requests_per_minute > 0` on a
record that is absent or has `0 ≤ tokens` and `last_refill ≤ now_ms`, the
decision has `remaining = ⌊stored tokens⌋`, `remaining ≥ 0`,
`retry_after_ms ≥ 0`, and a denial leaves `remaining = 0`. -/
theorem C7_decision_wellformed (rpm burst now_ms : ℤ) (state : Option Bucket)
    (hrpm : 0 < rpm)
    (hstate : ∀ b ∈ state, 0 ≤ b.tokens ∧ b.last_refill ≤ now_ms) :
    (check rpm burst now_ms state).1.remaining
        = ⌊(check rpm burst now_ms state).2.tokens⌋ ∧
      0 ≤ (check rpm burst now_ms state).1.remaining ∧
      0 ≤ (check rpm burst now_ms state).1.retry_after_ms ∧
      ((check rpm burst now_ms state).1.allowed = false →
        (check rpm burst now_ms state).1.remaining = 0) := by
  have hrate : (0 : ℚ) < (rpm : ℚ) / 60 :=
    div_pos (by exact_mod_cast hrpm) (by norm_num)
  obtain ⟨h1, h2, h3, h4⟩ := runScript_decision_props (max burst 1)
    ((rpm : ℚ) / 60) now_ms state (le_max_right _ _) hrate hstate
  refine ⟨h1, h2, h3, fun ha => h4 ?_⟩
  intro heq
  simp only [check, heq] at ha
  exact absurd ha (by norm_num)

/-- C7 amended witness: a concrete allowed call with a present record has
`remaining = ⌊stored tokens⌋ ≥ 0` and `retry_after_ms ≥ 0`. -/
theorem C7_decision_wellformed_witness :
    (check 120 10 2000 (some ⟨4, 1000⟩)).1.remaining
        = ⌊(check 120 10 2000 (some ⟨4, 1000⟩)).2.tokens⌋ ∧
      0 ≤ (check 120 10 2000 (some ⟨4, 1000⟩)).1.remaining ∧
      0 ≤ (check 120 10 2000 (some ⟨4, 1000⟩)).1.retry_after_ms ∧
      ((check 120 10 2000 (some ⟨4, 1000⟩)).1.allowed = false →
        (check 120 10 2000 (some ⟨4, 1000⟩)).1.remaining = 0) := by
  refine C7_decision_wellformed 120 10 2000 (some ⟨4, 1000⟩) (by norm_num) ?_
  intro b hb
  cases hb
  norm_num

/-- C7 counterexample: a call whose timestamp precedes the stored
`last_refill` (clock moved backwards) yields a denial whose `remaining`
is strictly negative — not 0, and not a non-negative count. -/
theorem C7_counterexample :
    (check 60 10 0 (some ⟨1/2, 10000⟩)).1.allowed = false ∧
      (check 60 10 0 (some ⟨1/2, 10000⟩)).1.remaining < 0 := by
  constructor <;> norm_num [check, runScript, refillTokens]

/-- C10: with a positive requested rate and a non-negative pre-call token
count, a `check` decision is allowed exactly when its `retry_after_ms` is
zero. -/
theorem C10_allowed_iff_zero_retry (rpm burst now_ms : ℤ)
    (state : Option Bucket) (hrpm : 0 < rpm)
    (hstate : ∀ b ∈ state, 0 ≤ b.tokens) :
    ((check rpm burst now_ms state).1.allowed = true ↔
      (check rpm burst now_ms state).1.retry_after_ms = 0) := by
  have hrate : (0 : ℚ) < (rpm : ℚ) / 60 :=
    div_pos (by exact_mod_cast hrpm) (by norm_num)
  rcases runScript_allowed_retry (max burst 1) ((rpm : ℚ) / 60) now_ms state
      hrate with ⟨h1, h2⟩ | ⟨h1, h2⟩
  · constructor
    · intro _
      simpa [check] using h2
    · intro _
      simp [check, h1]
  · constructor
    · intro ha
      exfalso
      simp [check, h1] at ha
    · intro hr
      exfalso
      simp only [check] at hr
      omega

/-- A fresh-record `check` call is allowed and stores `max(burst,1) - 1`
tokens with `last_refill = now_ms`, when `burst = N ≥ 1`. -/
theorem check_fresh_same_time (rpm N now_ms : ℤ) (hN : 1 ≤ N) :
    (check rpm N now_ms none).2 = ⟨((N - 1 : ℤ) : ℚ), now_ms⟩ ∧
      (check rpm N now_ms none).1.allowed = true := by
  have hmaxN : max N 1 = N := max_eq_left hN
  have hrefill : refillTokens N ((N : ℤ) : ℚ) ((rpm : ℚ) / 60) 0
      = ((N : ℤ) : ℚ) := refillTokens_zero_elapsed _ _ _ le_rfl
  have hNq : (1 : ℚ) ≤ ((N : ℤ) : ℚ) := by exact_mod_cast hN
  constructor
  · simp only [check, runScript, hmaxN, sub_self, hrefill]
    rw [if_pos hNq]
    simp only [Bucket.mk.injEq]
    constructor
    · push_cast
      ring
    · trivial
  · simp only [check, runScript, hmaxN, sub_self, hrefill]
    rw [if_pos hNq]
    rfl

/-- A same-timestamp `check` call on a stored integer count `T` with
`0 ≤ T ≤ N = burst ≥ 1` stores `max(T - 1, 0)` tokens and is allowed
exactly when `1 ≤ T`. -/
theorem check_same_time_step (rpm N now_ms : ℤ) (hN : 1 ≤ N) (T : ℤ)
    (hT0 : 0 ≤ T) (hTN : T ≤ N) :
    (check rpm N now_ms (some ⟨(T : ℚ), now_ms⟩)).2
        = ⟨((max (T - 1) 0 : ℤ) : ℚ), now_ms⟩ ∧
      ((check rpm N now_ms (some ⟨(T : ℚ), now_ms⟩)).1.allowed = true
        ↔ 1 ≤ T) := by
  have hmaxN : max N 1 = N := max_eq_left hN
  have hrefill : refillTokens N ((T : ℤ) : ℚ) ((rpm : ℚ) / 60) 0
      = ((T : ℤ) : ℚ) := refillTokens_zero_elapsed _ _ _ (by exact_mod_cast hTN)
  constructor
  · simp only [check, runScript, hmaxN, sub_self, hrefill]
    split_ifs with h
    · have hT1 : 1 ≤ T := by exact_mod_cast h
      simp only [Bucket.mk.injEq]
      constructor
      · rw [max_eq_left (by omega : 0 ≤ T - 1)]
        push_cast
        ring
      · trivial
    · have hT1 : T < 1 := by exact_mod_cast not_le.mp h
      have hT0' : T = 0 := by omega
      subst hT0'
      norm_num
  · simp only [check, runScript, hmaxN, sub_self, hrefill]
    split_ifs with h
    · constructor
      · intro _
        exact_mod_cast h
      · intro _
        rfl
    · have hT1 : T < 1 := by exact_mod_cast not_le.mp h
      constructor
      · intro hcontra
        have hc : ((0 : ℤ) == 1) = true := hcontra
        exact absurd hc (by decide)
      · intro h1
        exact absurd h1 (by omega)

/-- State after `k ≥ 1` identical same-timestamp calls from an absent
record with `burst = N ≥ 1`: `max(N - k, 0)` tokens, refilled at
`now_ms`. -/
theorem afterCalls_same_time (rpm N now_ms : ℤ) (hN : 1 ≤ N) :
    ∀ k : ℕ, afterCalls rpm N now_ms (k + 1)
        = some ⟨((max (N - ((k : ℤ) + 1)) 0 : ℤ) : ℚ), now_ms⟩ := by
  intro k
  induction k with
  | zero =>
    rw [show afterCalls rpm N now_ms (0 + 1)
        = some (check rpm N now_ms none).2 from rfl,
      (check_fresh_same_time rpm N now_ms hN).1]
    refine congrArg some ?_
    rw [Bucket.mk.injEq]
    exact ⟨congrArg (fun z : ℤ => (z : ℚ)) (by omega), rfl⟩
  | succ k ih =>
    rw [show afterCalls rpm N now_ms (k + 1 + 1)
        = some (check rpm N now_ms (afterCalls rpm N now_ms (k + 1))).2
        from rfl,
      ih,
      (check_same_time_step rpm N now_ms hN (max (N - ((k : ℤ) + 1)) 0)
        (le_max_right _ _) (by omega)).1]
    refine congrArg some ?_
    rw [Bucket.mk.injEq]
    exact ⟨congrArg (fun z : ℤ => (z : ℚ)) (by omega), rfl⟩

/-- The `(k+1)`-th of a run of identical same-timestamp calls (absent
record, `burst = N ≥ 1`) is allowed exactly when `k < N`. -/
theorem callResult_allowed_iff (rpm N now_ms : ℤ) (hN : 1 ≤ N) (k : ℕ) :
    ((callResult rpm N now_ms k).allowed = true ↔ (k : ℤ) < N) := by
  cases k with
  | zero =>
    rw [show callResult rpm N now_ms 0
        = (check rpm N now_ms none).1 from rfl]
    constructor
    · intro _
      exact_mod_cast hN
    · intro _
      exact (check_fresh_same_time rpm N now_ms hN).2
  | succ k =>
    rw [show callResult rpm N now_ms (k + 1)
        = (check rpm N now_ms (afterCalls rpm N now_ms (k + 1))).1 from rfl,
      afterCalls_same_time rpm N now_ms hN k]
    rw [(check_same_time_step rpm N now_ms hN (max (N - ((k : ℤ) + 1)) 0)
      (le_max_right _ _) (by omega)).2]
    omega

/-- C4: starting from an absent record with capacity `N ≥ 1`, each of the
first `N` same-timestamp `check` calls is allowed, and the `(N+1)`-th at
that timestamp is denied — for any requested rate. -/
theorem C4_saturation (rpm N now_ms : ℤ) (hN : 1 ≤ N) :
    (∀ k : ℕ, (k : ℤ) < N → (callResult rpm N now_ms k).allowed = true) ∧
      (callResult rpm N now_ms N.toNat).allowed = false := by
  constructor
  · intro k hk
    exact (callResult_allowed_iff rpm N now_ms hN k).mpr hk
  · have h := callResult_allowed_iff rpm N now_ms hN N.toNat
    have hlt : ¬ ((N.toNat : ℤ) < N) := by omega
    rcases Bool.eq_false_or_eq_true (callResult rpm N now_ms N.toNat).allowed
      with hb | hb
    · exact absurd (h.mp hb) hlt
    · exact hb

/-- C4 witness: capacity 2, rate 60/min, one timestamp — calls one and
two allowed, call three denied. -/
theorem C4_saturation_witness :
    (callResult 60 2 0 0).allowed = true ∧
      (callResult 60 2 0 1).allowed = true ∧
      (callResult 60 2 0 (2 : ℤ).toNat).allowed = false :=
  ⟨(C4_saturation 60 2 0 (by norm_num)).1 0 (by norm_num),
    (C4_saturation 60 2 0 (by norm_num)).1 1 (by norm_num),
    (C4_saturation 60 2 0 (by norm_num)).2⟩

/-- C9: since the whole read–refill–consume–persist procedure runs as one
script invocation (one atomic step on the stored record), any run of `m`
same-timestamp `check` calls on a fresh key of capacity `N ≥ 1` admits
exactly `min(m, N)` of them, whatever the order — no over-admission. -/
theorem C9_atomic_admission (rpm N now_ms : ℤ) (hN : 1 ≤ N) (m : ℕ) :
    allowedCount rpm N now_ms m = min m N.toNat := by
  induction m with
  | zero => simp [allowedCount]
  | succ m ih =>
    simp only [allowedCount, ih]
    by_cases hm : (m : ℤ) < N
    · rw [if_pos ((callResult_allowed_iff rpm N now_ms hN m).mpr hm)]
      omega
    · rw [if_neg (fun hb =>
        hm ((callResult_allowed_iff rpm N now_ms hN m).mp hb))]
      omega

/-- C9 witness: five same-timestamp calls on a fresh key of capacity 2
admit exactly two. -/
theorem C9_atomic_admission_witness :
    allowedCount 60 2 0 5 = min 5 (2 : ℤ).toNat :=
  C9_atomic_admission 60 2 0 (by norm_num) 5

/-- C10 witness: a concrete allowed call with a non-negative record has
`retry_after_ms = 0`, and conversely. -/
theorem C10_allowed_iff_zero_retry_witness :
    ((check 60 10 0 (some ⟨5, 0⟩)).1.allowed = true ↔
      (check 60 10 0 (some ⟨5, 0⟩)).1.retry_after_ms = 0) := by
  refine C10_allowed_iff_zero_retry 60 10 0 (some ⟨5, 0⟩) (by norm_num) ?_
  intro b hb
  cases hb
  norm_num
